import Mathlib

/-
Verification of the mirai promise library (src/mirai/futures.py) against its
specification.  The resolution cell of a Promise is embedded as the inductive
ResultState; combinators are embedded as functions on resolved states; the
aggregation operators collect and select are embedded as folds over the
chronological order in which their input promises complete; within is embedded
over resolution schedules carrying abstract completion times.  Python
exceptions raised to the caller are modelled by RaisedErr, exceptions stored
inside a promise by a type parameter E (or the concrete PyErr where the
library itself constructs the exception).
-/

namespace Mirai

/-- State of the single-assignment result cell backing a Promise: pending,
resolved to a value, or resolved to an exception. -/
inductive ResultState (V E : Type) where
  | Pending
  | Success (v : V)
  | Failure (e : E)
deriving DecidableEq, Repr

/-- Outcome of a resolved input promise: success with a value or failure with
an exception.  Used for aggregation inputs and timed schedules. -/
inductive Res (V E : Type) where
  | succ (v : V)
  | fail (e : E)
deriving DecidableEq, Repr

/-- True exactly on a successful outcome. -/
def Res.isSucc {V E : Type} : Res V E → Bool
  | .succ _ => true
  | .fail _ => false

/-- Exceptions the library raises synchronously to the caller rather than
storing in a promise: AlreadyResolvedError from setvalue and setexception,
ValueError from select on an empty list (the SelectOnEmpty kind), and
AttributeError from a write on a Future (the NotWritable kind). -/
inductive RaisedErr where
  | alreadyResolved
  | selectOnEmpty
  | notWritable
deriving DecidableEq, Repr

/-- Exceptions the library itself stores in a promise: the MiraiError raised
by filter (carrying the rejected value), the TimeoutError built by within
(carrying the duration), and arbitrary other exceptions. -/
inductive PyErr (V : Type) where
  | miraiFilteredOut (v : V)
  | timeoutError (d : Nat)
  | exc (name : String)
deriving DecidableEq, Repr

variable {V E W : Type}

/-- Promise.isdefined: whether the underlying future is done. -/
def isdefined : ResultState V E → Bool
  | .Pending => false
  | _ => true

/-- Promise.issuccess: none while pending; on a resolved promise get is
attempted, an exception meaning false and a value meaning true. -/
def issuccess : ResultState V E → Option Bool
  | .Pending => none
  | .Success _ => some true
  | .Failure _ => some false

/-- Promise.isfailure: the negation of issuccess when that is not none. -/
def isfailure (s : ResultState V E) : Option Bool :=
  match issuccess s with
  | none => none
  | some v => some (!v)

/-- Promise.getorelse with a zero timeout: the value on success, the default
while pending or failed. -/
def getorelse (s : ResultState V E) (dflt : V) : V :=
  match s with
  | .Success v => v
  | _ => dflt

/-- Promise.setvalue: raises AlreadyResolvedError when the promise is already
resolved, otherwise commits the value. -/
def setvalue (s : ResultState V E) (v : V) : Except RaisedErr (ResultState V E) :=
  if isdefined s then .error .alreadyResolved else .ok (.Success v)

/-- Promise.setexception: raises AlreadyResolvedError when the promise is
already resolved, otherwise commits the exception. -/
def setexception (s : ResultState V E) (e : E) : Except RaisedErr (ResultState V E) :=
  if isdefined s then .error .alreadyResolved else .ok (.Failure e)

/-- One write call against a promise. -/
inductive WriteOp (V E : Type) where
  | setvalue (v : V)
  | setexception (e : E)
deriving DecidableEq, Repr

/-- Run one write call, returning the call result together with the cell state
afterwards; a raised AlreadyResolvedError leaves the state as it was. -/
def applyWrite (s : ResultState V E) : WriteOp V E → Except RaisedErr Unit × ResultState V E
  | .setvalue v =>
    match setvalue s v with
    | .error err => (.error err, s)
    | .ok t => (.ok (), t)
  | .setexception e =>
    match setexception s e with
    | .error err => (.error err, s)
    | .ok t => (.ok (), t)

/-- Run a sequence of write calls, collecting each call result and the final
cell state. -/
def runWrites : ResultState V E → List (WriteOp V E) → List (Except RaisedErr Unit) × ResultState V E
  | s, [] => ([], s)
  | s, op :: ops =>
    let r := applyWrite s op
    let rest := runWrites r.2 ops
    (r.1 :: rest.1, rest.2)

/-- Promise.transform: once the source cell is resolved, fn is applied to it;
an exception raised inside fn fails the output promise, otherwise the output
adopts the promise fn returned.  While the source is pending, so is the
output. -/
def transform (s : ResultState V E) (fn : ResultState V E → Except E (ResultState W E)) :
    ResultState W E :=
  match s with
  | .Pending => .Pending
  | .Success v =>
    match fn (.Success v) with
    | .error e => .Failure e
    | .ok q => q
  | .Failure e =>
    match fn (.Failure e) with
    | .error er => .Failure er
    | .ok q => q

/-- Promise.flatmap: transform whose callback applies fn to the gotten value;
on a failed source, get raises the stored exception, which propagates out of
the callback and is committed to the output promise. -/
def flatmap (s : ResultState V E) (fn : V → Except E (ResultState W E)) : ResultState W E :=
  transform s (fun fut =>
    match fut with
    | .Pending => .ok .Pending
    | .Success v => fn v
    | .Failure e => .error e)

/-- Promise.map: flatmap whose callback wraps the result of fn as an already
successful promise. -/
def map (s : ResultState V E) (fn : V → Except E W) : ResultState W E :=
  flatmap s (fun v => Except.map ResultState.Success (fn v))

/-- Promise.filter: flatmap that keeps a value satisfying fn and otherwise
fails with the MiraiError carrying the rejected value. -/
def filter (s : ResultState V (PyErr V)) (fn : V → Bool) : ResultState V (PyErr V) :=
  flatmap s (fun v => .ok (if fn v then .Success v else .Failure (.miraiFilteredOut v)))

/-- Promise.updateifempty applied to an already resolved source: the resolved
state is copied in when this promise is still pending; otherwise the raised
AlreadyResolvedError is swallowed and the existing state kept. -/
def updateifempty (s other : ResultState V E) : ResultState V E :=
  match s with
  | .Pending => other
  | t => t

/-- Future: the read-only view of a promise, holding the state of the bound
promise cell. -/
structure Future (V E : Type) where
  promise : ResultState V E
deriving DecidableEq, Repr

/-- Future.setvalue: raises AttributeError (the NotWritable kind) and leaves
the bound promise untouched. -/
def Future.setvalue (f : Future V E) (_v : V) : Except RaisedErr Unit × Future V E :=
  (.error .notWritable, f)

/-- Future.setexception: raises AttributeError (the NotWritable kind) and
leaves the bound promise untouched. -/
def Future.setexception (f : Future V E) (_e : E) : Except RaisedErr Unit × Future V E :=
  (.error .notWritable, f)

/-- Modelled from the spec: the proxyto helper from utils.py is absent from
src; the spec states that every read operation delegates to the bound
Promise. -/
def Future.isdefined (f : Future V E) : Bool :=
  Mirai.isdefined f.promise

/-- Modelled from the spec: read delegation of issuccess to the bound
Promise (proxyto helper absent from src). -/
def Future.issuccess (f : Future V E) : Option Bool :=
  Mirai.issuccess f.promise

/-- Modelled from the spec: read delegation of isfailure to the bound
Promise (proxyto helper absent from src). -/
def Future.isfailure (f : Future V E) : Option Bool :=
  Mirai.isfailure f.promise

/-- Modelled from the spec: read delegation of getorelse to the bound
Promise (proxyto helper absent from src). -/
def Future.getorelse (f : Future V E) (dflt : V) : V :=
  Mirai.getorelse f.promise dflt

/-- Helper: once a promise is resolved, updateifempty keeps it unchanged. -/
lemma updateifempty_of_ne_pending {s other : ResultState V E} (h : s ≠ .Pending) :
    updateifempty s other = s := by
  cases s with
  | Pending => exact absurd rfl h
  | Success v => rfl
  | Failure e => rfl

/-- Helper: a sequence of writes against an already resolved cell returns an
AlreadyResolvedError per call and leaves the state unchanged. -/
lemma runWrites_of_isdefined (s : ResultState V E) (hs : isdefined s = true) :
    ∀ ops : List (WriteOp V E),
      runWrites s ops = (ops.map (fun _ => Except.error RaisedErr.alreadyResolved), s)
  | [] => rfl
  | op :: ops => by
    have happ : applyWrite s op = (.error .alreadyResolved, s) := by
      cases op with
      | setvalue v => simp [applyWrite, setvalue, hs]
      | setexception e => simp [applyWrite, setexception, hs]
    simp [runWrites, happ, runWrites_of_isdefined s hs ops]

/-- C1: once a Promise is resolved, every later setvalue or setexception call,
in any combination, raises AlreadyResolvedError and leaves the committed state
unchanged; consequently a Promise started pending is resolved at most once,
its state after any write sequence being that of the first write. -/
theorem promise_resolves_at_most_once :
    (∀ s : ResultState V E, isdefined s = true →
      ∀ ops : List (WriteOp V E),
        runWrites s ops = (ops.map (fun _ => Except.error RaisedErr.alreadyResolved), s))
    ∧ (∀ (op : WriteOp V E) (ops : List (WriteOp V E)),
        (runWrites .Pending (op :: ops)).2 = (applyWrite .Pending op).2) := by
  constructor
  · exact fun s hs ops => runWrites_of_isdefined s hs ops
  · intro op ops
    have h1 : (applyWrite (.Pending : ResultState V E) op).1 = .ok ()
        ∧ isdefined (applyWrite (.Pending : ResultState V E) op).2 = true := by
      cases op with
      | setvalue v => exact ⟨rfl, rfl⟩
      | setexception e => exact ⟨rfl, rfl⟩
    simp [runWrites, runWrites_of_isdefined _ h1.2 ops]

/-- Witness for C1 at concrete inputs. -/
theorem promise_resolves_at_most_once_witness :
    runWrites (ResultState.Success 3 : ResultState Nat String)
        [WriteOp.setexception "boom", WriteOp.setvalue 4]
      = ([Except.error RaisedErr.alreadyResolved, Except.error RaisedErr.alreadyResolved],
         ResultState.Success 3)
    ∧ (runWrites (.Pending : ResultState Nat String)
        [WriteOp.setvalue 5, WriteOp.setexception "late"]).2
      = (applyWrite (.Pending : ResultState Nat String) (WriteOp.setvalue 5)).2 :=
  ⟨promise_resolves_at_most_once.1 (ResultState.Success 3) rfl
      [WriteOp.setexception "boom", WriteOp.setvalue 4],
   promise_resolves_at_most_once.2 (WriteOp.setvalue 5) [WriteOp.setexception "late"]⟩

/-- C3: map on a failed promise propagates the original exception unchanged
and never invokes the mapped function (the result does not depend on it), and
map is exactly flatmap composed with an immediately successful promise of the
result of fn. -/
theorem map_failure_spec :
    (∀ (e : E) (fn : V → Except E W), map (.Failure e) fn = .Failure e)
    ∧ (∀ (e : E) (fn fn2 : V → Except E W), map (.Failure e) fn = map (.Failure e) fn2)
    ∧ (∀ (s : ResultState V E) (fn : V → Except E W),
        map s fn = flatmap s (fun v => Except.map ResultState.Success (fn v))) :=
  ⟨fun _ _ => rfl, fun _ _ _ => rfl, fun _ _ => rfl⟩

/-- C7: on a Future every write raises the NotWritable error and leaves the
bound promise unchanged, and every read returns exactly what the bound
Promise returns. -/
theorem future_read_only :
    ∀ (f : Future V E) (v : V) (e : E) (d : V),
      Future.setvalue f v = (.error .notWritable, f)
      ∧ Future.setexception f e = (.error .notWritable, f)
      ∧ Future.isdefined f = isdefined f.promise
      ∧ Future.issuccess f = issuccess f.promise
      ∧ Future.isfailure f = isfailure f.promise
      ∧ Future.getorelse f d = getorelse f.promise d :=
  fun _ _ _ _ => ⟨rfl, rfl, rfl, rfl, rfl, rfl⟩

/-- C8: filter yields a success exactly when the source succeeded with a value
the predicate accepts, in which case the value is unchanged; a rejected value
fails with the MiraiError carrying that value; a failed source passes its
exception through unchanged. -/
theorem filter_spec :
    ∀ fn : V → Bool,
      (∀ (s : ResultState V (PyErr V)) (w : V),
        filter s fn = .Success w ↔ (s = .Success w ∧ fn w = true))
      ∧ (∀ v : V,
        filter (.Success v) fn = if fn v then .Success v else .Failure (.miraiFilteredOut v))
      ∧ (∀ e : PyErr V, filter (.Failure e) fn = .Failure e) := by
  intro fn
  refine ⟨?_, ?_, fun _ => rfl⟩
  · intro s w
    cases s with
    | Pending => simp [filter, flatmap, transform]
    | Success v =>
      by_cases hv : fn v
      · simp only [filter, flatmap, transform, hv, if_pos]
        constructor
        · rintro h
          cases h
          exact ⟨rfl, hv⟩
        · rintro ⟨h, _⟩
          cases h
          rfl
      · simp only [filter, flatmap, transform, hv, if_neg, Bool.false_eq_true]
        constructor
        · intro h
          cases h
        · rintro ⟨h, hw⟩
          cases h
          exact absurd hw hv
    | Failure e => simp [filter, flatmap, transform]
  · intro v
    by_cases hv : fn v <;> simp [filter, flatmap, transform, hv]

/-- Witness for C8 at concrete inputs. -/
theorem filter_spec_witness :
    filter (ResultState.Success 3) (fun v => decide (2 < v)) = .Success 3
    ∧ filter (ResultState.Success 1) (fun v => decide (2 < v))
      = .Failure (.miraiFilteredOut 1)
    ∧ filter (.Failure (.exc "boom") : ResultState Nat (PyErr Nat)) (fun v => decide (2 < v))
      = .Failure (.exc "boom") :=
  ⟨((filter_spec (fun v => decide (2 < v))).1 (.Success 3) 3).mpr ⟨rfl, by decide⟩,
   (filter_spec (fun v => decide (2 < v))).2.1 1,
   (filter_spec (fun v => decide (2 < v))).2.2 (.exc "boom")⟩

/-- C10: issuccess and isfailure are consistent duals: each returns none
exactly when the promise is unresolved, and on a resolved promise isfailure is
the boolean negation of issuccess. -/
theorem probes_consistent_duals :
    ∀ s : ResultState V E,
      (issuccess s = none ↔ s = .Pending)
      ∧ (isfailure s = none ↔ s = .Pending)
      ∧ (∀ b : Bool, issuccess s = some b → isfailure s = some (!b)) := by
  intro s
  cases s with
  | Pending => exact ⟨by simp [issuccess], by simp [isfailure, issuccess], by intro b h; cases h⟩
  | Success v =>
    refine ⟨by simp [issuccess], by simp [isfailure, issuccess], ?_⟩
    intro b h
    cases h
    rfl
  | Failure e =>
    refine ⟨by simp [issuccess], by simp [isfailure, issuccess], ?_⟩
    intro b h
    cases h
    rfl

/-- Witness for C10 at concrete inputs. -/
theorem probes_consistent_duals_witness :
    isfailure (ResultState.Success 3 : ResultState Nat String) = some false
    ∧ isfailure (ResultState.Failure "e" : ResultState Nat String) = some true :=
  ⟨(probes_consistent_duals (ResultState.Success 3 : ResultState Nat String)).2.2 true rfl,
   (probes_consistent_duals (ResultState.Failure "e" : ResultState Nat String)).2.2 false rfl⟩

/-- Shared state of a collect call: the slot list xs (the Python None
initialiser modelled as none), the countdown of outstanding successes, and the
aggregate promise. -/
structure CollectState (V E : Type) where
  xs : List (Option V)
  count : Nat
  p : ResultState (List (Option V)) E

/-- One completion event inside Promise.collect: input i has resolved.  On
success its value is stored into slot i and the countdown decremented, the
aggregate resolving via updateifempty once the countdown reaches zero; on
failure the aggregate is resolved with that exception via updateifempty. -/
def collectStep (outs : List (Res V E)) (st : CollectState V E) (i : Nat) : CollectState V E :=
  match outs[i]? with
  | some (.succ x) =>
    let xs := st.xs.set i (some x)
    let count := st.count - 1
    if count = 0 then ⟨xs, count, updateifempty st.p (.Success xs)⟩
    else ⟨xs, count, st.p⟩
  | some (.fail e) => ⟨st.xs, st.count, updateifempty st.p (.Failure e)⟩
  | none => st

/-- Initial collect state: every slot None, countdown the number of inputs,
aggregate pending. -/
def collectInit (V E : Type) (n : Nat) : CollectState V E :=
  ⟨List.replicate n none, n, .Pending⟩

/-- The nonempty branch of Promise.collect, run over the chronological order
in which the inputs complete; outs gives each input outcome by index and
order lists the input indices in completion order. -/
def collectLoop (outs : List (Res V E)) (order : List Nat) : ResultState (List (Option V)) E :=
  (order.foldl (collectStep outs) (collectInit V E outs.length)).p

/-- Promise.collect: an immediately successful empty list when there are no
inputs, otherwise the callback machinery of collectLoop. -/
def collect (outs : List (Res V E)) (order : List Nat) : ResultState (List (Option V)) E :=
  if outs.length = 0 then .Success [] else collectLoop outs order

/-- Helper: a collect step never changes an already resolved aggregate. -/
lemma collectStep_p_of_resolved {outs : List (Res V E)} {st : CollectState V E}
    (h : st.p ≠ .Pending) (i : Nat) :
    (collectStep outs st i).p = st.p := by
  unfold collectStep
  cases houts : outs[i]? with
  | none => rfl
  | some r =>
    cases r with
    | succ x =>
      dsimp only
      split
      · exact updateifempty_of_ne_pending h
      · rfl
    | fail e => exact updateifempty_of_ne_pending h

/-- Helper: once the aggregate of a collect call is resolved, later completion
events leave it unchanged. -/
lemma collectFold_p_of_resolved {outs : List (Res V E)} :
    ∀ (order : List Nat) (st : CollectState V E), st.p ≠ .Pending →
      (order.foldl (collectStep outs) st).p = st.p
  | [], _, _ => rfl
  | i :: order, st, h => by
    rw [List.foldl_cons]
    have h1 : (collectStep outs st i).p = st.p := collectStep_p_of_resolved h i
    rw [collectFold_p_of_resolved order _ (by rw [h1]; exact h), h1]

/-- Helper: with no inputs, the collect callback machinery never fires and the
aggregate stays pending forever. -/
lemma collectFold_nil_outs :
    ∀ (order : List Nat) (st : CollectState V E),
      order.foldl (collectStep ([] : List (Res V E))) st = st
  | [], _ => rfl
  | i :: order, st => by
    rw [List.foldl_cons]
    have hstep : collectStep ([] : List (Res V E)) st i = st := by
      unfold collectStep
      simp
    rw [hstep]
    exact collectFold_nil_outs order st

/-- Helper for the all-success case of collect: while the remaining events are
distinct in-range successes matching the countdown, processing them fills the
remaining slots and resolves the aggregate to the full slot list on the last
event. -/
lemma collectFold_all_success (vals : List V) :
    ∀ (remaining : List Nat) (st : CollectState V E),
      remaining.Nodup →
      (∀ i ∈ remaining, i < vals.length) →
      st.count = remaining.length →
      st.xs.length = vals.length →
      (∀ i, i < vals.length → i ∉ remaining → st.xs[i]? = some (vals[i]?)) →
      st.p = .Pending →
      remaining ≠ [] →
      (remaining.foldl (collectStep (vals.map Res.succ)) st).p = .Success (vals.map some)
  | [], _, _, _, _, _, _, _, hne => absurd rfl hne
  | i :: rest, st, hnd, hbound, hcount, hlen, hslots, hp, _ => by
    have hi : i < vals.length := hbound i (List.mem_cons_self i rest)
    have houts : (vals.map (Res.succ (E := E)))[i]? = some (Res.succ vals[i]) := by
      rw [List.getElem?_map, List.getElem?_eq_getElem hi]
      rfl
    rw [List.foldl_cons]
    have hstep : collectStep (vals.map Res.succ) st i =
        (if st.count - 1 = 0 then
          ⟨st.xs.set i (some vals[i]), st.count - 1,
            updateifempty st.p (.Success (st.xs.set i (some vals[i])))⟩
        else ⟨st.xs.set i (some vals[i]), st.count - 1, st.p⟩ : CollectState V E) := by
      unfold collectStep
      rw [houts]
    cases hrest : rest with
    | nil =>
      subst hrest
      have hcz : st.count - 1 = 0 := by rw [hcount]; rfl
      rw [hstep, if_pos hcz, List.foldl_nil]
      have hxs : st.xs.set i (some vals[i]) = vals.map some := by
        apply List.ext_getElem?
        intro j
        rw [List.getElem?_map]
        by_cases hji : i = j
        · subst hji
          rw [List.getElem?_set, if_pos rfl, if_pos (by rw [hlen]; exact hi),
            List.getElem?_eq_getElem hi]
          rfl
        · rw [List.getElem?_set, if_neg hji]
          by_cases hj : j < vals.length
          · have := hslots j hj (by simp [Ne.symm hji])
            rw [this, List.getElem?_eq_getElem hj]
            rfl
          · rw [List.getElem?_eq_none (by rw [hlen]; omega),
              List.getElem?_eq_none (le_of_not_lt hj)]
            rfl
      simp only [hp, updateifempty, hxs]
    | cons r rs =>
      have hcnz : ¬ (st.count - 1 = 0) := by
        rw [hcount]
        simp [hrest]
      rw [hstep, if_neg hcnz]
      subst hrest
      refine collectFold_all_success vals (r :: rs)
        ⟨st.xs.set i (some vals[i]), st.count - 1, st.p⟩
        (List.Nodup.of_cons hnd)
        (fun k hk => hbound k (List.mem_cons_of_mem i hk))
        (by rw [hcount]; rfl)
        (by rw [List.length_set]; exact hlen)
        ?_ hp (by simp)
      intro k hk hknotin
      by_cases hki : i = k
      · subst hki
        rw [List.getElem?_set, if_pos rfl, if_pos (by rw [hlen]; exact hi),
          List.getElem?_eq_getElem hi]
      · rw [List.getElem?_set, if_neg hki]
        refine hslots k hk ?_
        intro hmem
        rcases List.mem_cons.mp hmem with h1 | h2
        · exact hki (h1.symm)
        · exact hknotin h2

/-- Helper for the first-failure case of collect: while every processed event
is a success (or out of range) and strictly fewer events than the countdown
have been processed, the aggregate stays pending. -/
lemma collectFold_pending (outs : List (Res V E)) :
    ∀ (pre : List Nat) (st : CollectState V E),
      (∀ i ∈ pre, Option.all Res.isSucc outs[i]? = true) →
      pre.length + 1 ≤ st.count →
      st.p = .Pending →
      (pre.foldl (collectStep outs) st).p = .Pending
  | [], _, _, _, hp => hp
  | i :: rest, st, hsucc, hcount, hp => by
    rw [List.foldl_cons]
    cases houts : outs[i]? with
    | none =>
      have hstep : collectStep outs st i = st := by
        unfold collectStep
        rw [houts]
      rw [hstep]
      exact collectFold_pending outs rest st
        (fun k hk => hsucc k (List.mem_cons_of_mem i hk))
        (by simp at hcount; omega) hp
    | some r =>
      cases r with
      | succ x =>
        have hcnz : ¬ (st.count - 1 = 0) := by
          simp only [List.length_cons] at hcount
          omega
        have hstep : collectStep outs st i =
            (⟨st.xs.set i (some x), st.count - 1, st.p⟩ : CollectState V E) := by
          unfold collectStep
          rw [houts]
          simp [hcnz]
        rw [hstep]
        exact collectFold_pending outs rest _
          (fun k hk => hsucc k (List.mem_cons_of_mem i hk))
          (by simp only [List.length_cons] at hcount; simp; omega) hp
      | fail e =>
        have := hsucc i (List.mem_cons_self i rest)
        rw [houts] at this
        simp [Option.all, Res.isSucc] at this

/-- C2: when every input of Promise.collect succeeds, the aggregate resolves
to the list of their values in input index order, whatever the chronological
completion order; when some input fails, the aggregate fails with the
exception of the input that fails first chronologically, regardless of its
index. -/
theorem collect_spec :
    (∀ (vals : List V) (order : List Nat),
      order.Perm (List.range vals.length) →
      collect (E := E) (vals.map Res.succ) order = .Success (vals.map some))
    ∧ (∀ (outs : List (Res V E)) (pre post : List Nat) (j : Nat) (e : E),
      (pre ++ j :: post).Perm (List.range outs.length) →
      (∀ i ∈ pre, Option.all Res.isSucc outs[i]? = true) →
      outs[j]? = some (.fail e) →
      collect outs (pre ++ j :: post) = .Failure e) := by
  constructor
  · intro vals order hperm
    cases hv : vals with
    | nil =>
      subst hv
      have : order = [] := by
        have := hperm
        simp only [List.length_nil, List.range_zero] at this
        exact this.eq_nil
      subst this
      rfl
    | cons v vs =>
      rw [← hv]
      have hlen : vals.length ≠ 0 := by rw [hv]; simp
      have horderlen : order.length = vals.length := by
        rw [hperm.length_eq, List.length_range]
      have horder : order ≠ [] := by
        intro h
        rw [h] at horderlen
        exact hlen horderlen.symm
      have hmaplen : (vals.map (Res.succ (E := E))).length = vals.length :=
        List.length_map vals (Res.succ (E := E))
      unfold collect
      rw [if_neg (by rw [hmaplen]; exact hlen)]
      unfold collectLoop
      rw [hmaplen]
      refine collectFold_all_success vals order (collectInit V E vals.length)
        ((hperm.nodup_iff).mpr (List.nodup_range vals.length))
        (fun i hi => List.mem_range.mp ((hperm.mem_iff).mp hi))
        (by rw [horderlen]; rfl)
        (List.length_replicate vals.length none)
        ?_ rfl horder
      intro i hilt hinotin
      exact absurd ((hperm.mem_iff).mpr (List.mem_range.mpr hilt)) hinotin
  · intro outs pre post j e hperm hpre hj
    have hjlt : j < outs.length := (List.getElem?_eq_some_iff.mp hj).1
    have hlen : outs.length ≠ 0 := by omega
    unfold collect
    rw [if_neg hlen]
    unfold collectLoop
    rw [List.foldl_append, List.foldl_cons]
    have hcount : pre.length + 1 ≤ (collectInit V E outs.length).count := by
      have := hperm.length_eq
      simp only [List.length_append, List.length_cons, List.length_range] at this
      simp only [collectInit]
      omega
    have hpending := collectFold_pending outs pre (collectInit V E outs.length) hpre hcount rfl
    set st1 := pre.foldl (collectStep outs) (collectInit V E outs.length) with hst1
    have hstep : (collectStep outs st1 j).p = .Failure e := by
      unfold collectStep
      rw [hj]
      simp only [updateifempty, hpending]
    have : (collectStep outs st1 j).p ≠ .Pending := by
      rw [hstep]
      intro h
      cases h
    rw [collectFold_p_of_resolved post _ this, hstep]

/-- Witness for C2 at concrete inputs: three successes completing out of index
order, and a mixed run whose chronologically first failure wins. -/
theorem collect_spec_witness :
    collect (E := Nat) ([10, 20, 30].map Res.succ) [2, 0, 1] = .Success ([10, 20, 30].map some)
    ∧ collect [Res.succ 1, Res.fail 7, Res.succ 2] [0, 1, 2] = .Failure 7 :=
  ⟨collect_spec.1 [10, 20, 30] [2, 0, 1] (by decide),
   collect_spec.2 [Res.succ 1, Res.fail 7, Res.succ 2] [0] [2] 1 7 (by decide) (by decide) rfl⟩

/-- C6: Promise.collect on an empty input list is immediately a successful
empty list, while the countdown machinery of the nonempty branch would stay
pending forever on zero inputs, so the empty case is not implemented as a wait
for zero completions. -/
theorem collect_empty_immediate :
    ∀ order : List Nat,
      collect ([] : List (Res V E)) order = .Success []
      ∧ collectLoop ([] : List (Res V E)) order = .Pending := by
  intro order
  refine ⟨rfl, ?_⟩
  unfold collectLoop
  rw [collectFold_nil_outs order _]
  rfl

variable {P : Type} [DecidableEq P]

/-- One responder firing inside Promise.select: the resolved input f attempts
to resolve the output, via updateifempty, with the pair of itself and the
input list minus every promise identical to f. -/
def selectStep (fs : List P) (p : ResultState (P × List P) E) (f : P) :
    ResultState (P × List P) E :=
  updateifempty p (.Success (f, fs.filter (fun g => g != f)))

/-- Promise.select: raises ValueError (the SelectOnEmpty kind) on an empty
input list; otherwise the output promise is driven by the chronological order
in which the inputs resolve. -/
def select (fs : List P) (order : List P) :
    Except RaisedErr (ResultState (P × List P) E) :=
  if fs.isEmpty then .error .selectOnEmpty
  else .ok (order.foldl (selectStep fs) .Pending)

/-- Helper: once the output of a select call is resolved, later responders
leave it unchanged. -/
lemma selectFold_of_resolved (fs : List P) :
    ∀ (l : List P) (p : ResultState (P × List P) E), p ≠ .Pending →
      l.foldl (selectStep fs) p = p
  | [], _, _ => rfl
  | f :: l, p, h => by
    rw [List.foldl_cons]
    have hstep : selectStep fs p f = p := updateifempty_of_ne_pending h
    rw [hstep]
    exact selectFold_of_resolved fs l p h

/-- C4: on a nonempty list of distinct promises, select resolves with the
chronologically first input to fire, paired with the input list minus that
promise in original order; the later events do not affect the result. -/
theorem select_first_to_fire (fs : List P) (w : P) (rest : List P)
    (hne : fs ≠ []) (_hmem : w ∈ fs) (hnd : fs.Nodup) :
    select (E := E) fs (w :: rest) = .ok (.Success (w, fs.erase w)) := by
  unfold select
  rw [if_neg (by simp [List.isEmpty_iff, hne])]
  rw [List.foldl_cons]
  have hstep : selectStep (E := E) fs .Pending w
      = .Success (w, fs.filter (fun g => g != w)) := rfl
  rw [hstep, selectFold_of_resolved fs rest _ (by intro h; cases h)]
  rw [List.Nodup.erase_eq_filter hnd w]

/-- Witness for C4 at concrete inputs. -/
theorem select_first_to_fire_witness :
    select (E := Nat) [0, 1, 2] [1, 2, 0] = .ok (.Success (1, [0, 2])) :=
  select_first_to_fire [0, 1, 2] 1 [2, 0] (by decide) (by decide) (by decide)

/-- C5: Promise.select on an empty input list raises the SelectOnEmpty
configuration error, whatever completion events follow. -/
theorem select_empty_raises :
    ∀ order : List P, select (E := E) ([] : List P) order = .error .selectOnEmpty :=
  fun _ => rfl

/-- Resolution schedule of a promise in the timed model: none for a promise
that never resolves, otherwise the absolute time at which it resolves
together with its outcome. -/
def Sched (V E : Type) : Type :=
  Option (Nat × Res V E)

/-- flatmap in the timed model: a failed source propagates at its own time; a
successful source is continued with fn, the output resolving once both the
source and the promise returned by fn have resolved. -/
def schedFlatmap (s : Sched V E) (fn : V → Sched W E) : Sched W E :=
  match s with
  | none => none
  | some (t, .fail e) => some (t, .fail e)
  | some (t, .succ v) =>
    match fn v with
    | none => none
    | some (u, r) => some (max t u, r)

/-- Promise.or_ in the timed model: select over the two inputs followed by
flatmap onto the winner, so the first of the two to resolve determines the
outcome; a tie goes to self, whose responder is registered first. -/
def or_ (a b : Sched V E) : Sched V E :=
  match a, b with
  | none, x => x
  | some x, none => some x
  | some (ta, ra), some (tb, rb) => if ta ≤ tb then some (ta, ra) else some (tb, rb)

/-- Promise.wait in the timed model: succeeds with None after the duration. -/
def wait (E : Type) (d : Nat) : Sched Unit E :=
  some (d, .succ ())

/-- Promise.exception in the timed model: already failed at time zero. -/
def exceptionNow (e : E) : Sched V E :=
  some (0, .fail e)

/-- Promise.within: race self against a timer promise that waits for the
duration and then fails with a TimeoutError naming the duration. -/
def within (p : Sched V (PyErr V)) (d : Nat) : Sched V (PyErr V) :=
  or_ p (schedFlatmap (wait (PyErr V) d) (fun _ => exceptionNow (.timeoutError d)))

/-- C9: on a never resolving promise, within 0 fails at time zero with the
TimeoutError, and within any duration fails with the TimeoutError at that
duration, the input promise being read but never written; in general within
races the promise against the timer and the strictly first to resolve
determines the outcome. -/
theorem within_spec :
    (within (V := V) none 0 = some (0, .fail (.timeoutError 0)))
    ∧ (∀ d : Nat, within (V := V) none d = some (d, .fail (.timeoutError d)))
    ∧ (∀ (tp : Nat) (r : Res V (PyErr V)) (d : Nat), tp < d →
        within (some (tp, r)) d = some (tp, r))
    ∧ (∀ (tp : Nat) (r : Res V (PyErr V)) (d : Nat), d < tp →
        within (some (tp, r)) d = some (d, .fail (.timeoutError d))) := by
  refine ⟨?_, ?_, ?_, ?_⟩
  · simp [within, or_, schedFlatmap, wait, exceptionNow]
  · intro d
    simp [within, or_, schedFlatmap, wait, exceptionNow]
  · intro tp r d h
    simp [within, or_, schedFlatmap, wait, exceptionNow, Nat.le_of_lt h]
  · intro tp r d h
    simp [within, or_, schedFlatmap, wait, exceptionNow, Nat.not_le.mpr h]

/-- Witness for C9 at concrete inputs. -/
theorem within_spec_witness :
    within (some (1, Res.succ 5)) 2 = some (1, Res.succ 5)
    ∧ within (some (3, Res.succ 5)) 1 = some (1, .fail (.timeoutError 1)) :=
  ⟨within_spec.2.2.1 1 (Res.succ 5) 2 (by decide),
   within_spec.2.2.2 3 (Res.succ 5) 1 (by decide)⟩

end Mirai
